import Mathlib

/-!
Verification development for the hand-written JSON and TOML codecs of the
`serializer` repository (packages `json` and `toml`).  The definitions below
are a shallow embedding of the Go source: `json/serializer.go` (the
hand-rolled lexer/parser/mapper variant) and the hand-rolled TOML
implementation (lexer, parser, mapper, marshaller).

Modelling conventions:
* Go strings are modelled as `List Char` at the lexer level (the inputs of
  interest are ASCII, where Go's byte-indexed scanning coincides with
  character scanning) and as Lean `String` elsewhere.
* `int64`/`uint64` are modelled as `Int`/`Nat`; the sources use a single
  code path for all integer widths, so widths are collapsed to 64 bits.
* `float64` payloads are modelled as exact fractions (`GoFloat`, an
  integer numerator over a natural denominator, kept reduced).  No claim in
  this development depends on IEEE-754 rounding: every float literal
  appearing in a theorem is exactly representable, and the only float
  operation used by a theorem is the Go conversion `int64(f)` (truncation
  toward zero).
* Go's `map[string]interface{}` is modelled as an association list with
  key-overwrite insertion (`setKey`); key lookup order is irrelevant to all
  properties proved here.
* Go panics (unchecked type assertions, out-of-range slice expressions) are
  modelled explicitly by the `PResult.panic` constructor of the result type
  used on the TOML decoding path.
* Recursive parsers are written fuel-indexed; every entry point supplies
  fuel `2 * tokens + 2`, which dominates the number of recursive calls the
  Go parsers make (each call either consumes a token or is immediately
  preceded by one that does).
-/

namespace Serializer

/-- Model of `unicode.IsSpace` restricted to the ASCII range, as applied by both
lexers to single input bytes. -/
def goIsSpace (c : Char) : Bool :=
  c = ' ' || c = '\t' || c = '\n' || c = '\x0b' || c = '\x0c' || c = '\r'

/-- An exact fraction standing in for a `float64` value (see the header
comment): integer numerator over natural denominator. -/
structure GoFloat : Type where
  num : Int
  den : Nat
  deriving DecidableEq, Repr

/-- Build a `GoFloat` in lowest terms.  The gcd divides the numerator
exactly, so every integer-division convention agrees here; `Int.tdiv` is
used for uniformity with `goFloatToInt`. -/
def mkGoFloat (n : Int) (d : Nat) : GoFloat :=
  ⟨n.tdiv (Nat.gcd n.natAbs d : Int), d / Nat.gcd n.natAbs d⟩

/-- The parsed generic value tree (`interface{}` results of the Go parsers):
strings, int64, float64, bool, nil, `[]interface{}`, `map[string]interface{}`,
and (TOML only) `time.Time` carried as its RFC3339 lexeme. -/
inductive Value : Type where
  | str (s : String)
  | int (n : Int)
  | float (q : GoFloat)
  | bool (b : Bool)
  | null
  | arr (xs : List Value)
  | obj (entries : List (String × Value))
  | timeV (s : String)
  deriving Repr

/-- Lookup in a Go map modelled as an association list. -/
def getKey (tbl : List (String × Value)) (k : String) : Option Value :=
  match tbl with
  | [] => none
  | (k2, v) :: rest => if k2 = k then some v else getKey rest k

/-- Go map assignment `m[k] = v`: overwrite the existing binding or append. -/
def setKey (tbl : List (String × Value)) (k : String) (v : Value) :
    List (String × Value) :=
  match tbl with
  | [] => [(k, v)]
  | (k2, v2) :: rest =>
      if k2 = k then (k2, v) :: rest else (k2, v2) :: setKey rest k v

/-- Digits of a decimal literal folded into a natural number. -/
def digitsToNat (ds : List Char) : Nat :=
  ds.foldl (fun acc c => acc * 10 + (c.toNat - '0'.toNat)) 0

/-- Model of `strconv.ParseInt(s, 10, 64)`: optional sign, at least one
digit, and the value must fit in int64 (otherwise Go reports `ErrRange`,
which the parsers propagate as an error). -/
def goParseInt (s : String) : Option Int :=
  let (sign, ds) : Int × List Char :=
    match s.toList with
    | '+' :: r => (1, r)
    | '-' :: r => (-1, r)
    | r => (1, r)
  if ds = [] then none
  else if ds.all Char.isDigit then
    let v : Int := sign * (digitsToNat ds : Int)
    if -(2 ^ 63) ≤ v ∧ v ≤ 2 ^ 63 - 1 then some v else none
  else none

/-- Split a list at the first occurrence of a character from `seps`,
returning the part before, the separator, and the part after. -/
def splitFirst (seps : List Char) : List Char → Option (List Char × Char × List Char)
  | [] => none
  | c :: rest =>
      if seps.contains c then some ([], c, rest)
      else match splitFirst seps rest with
        | some (a, s, b) => some (c :: a, s, b)
        | none => none

/-- Model of `strconv.ParseFloat(s, 64)` on the character class produced by
the lexers (`digits . - e E +`): `[sign] digits [. digits] [(e|E) [sign]
digits]` with at least one mantissa digit, valued as an exact rational.
(IEEE rounding and the overflow-to-infinity range error are not modelled;
no claim depends on them.) -/
def goParseFloat (s : String) : Option GoFloat :=
  let (sign, body) : Int × List Char :=
    match s.toList with
    | '+' :: r => (1, r)
    | '-' :: r => (-1, r)
    | r => (1, r)
  let (mant, exopt) : List Char × Option (List Char) :=
    match splitFirst ['e', 'E'] body with
    | some (a, _, b) => (a, some b)
    | none => (body, none)
  let (ip, fp) : List Char × List Char :=
    match splitFirst ['.'] mant with
    | some (a, _, b) => (a, b)
    | none => (mant, [])
  if ¬ ip.all Char.isDigit then none
  else if ¬ fp.all Char.isDigit then none
  else if fp.contains '.' then none
  else if ip = [] ∧ fp = [] then none
  else
    let baseNum : Int := sign * (digitsToNat (ip ++ fp) : Int)
    let baseDen : Nat := 10 ^ fp.length
    match exopt with
    | none => some (mkGoFloat baseNum baseDen)
    | some ex =>
        let (esign, eds) : Bool × List Char :=
          match ex with
          | '+' :: r => (false, r)
          | '-' :: r => (true, r)
          | r => (false, r)
        if eds = [] ∨ ¬ eds.all Char.isDigit then none
        else
          let e := digitsToNat eds
          some (if esign then mkGoFloat baseNum (baseDen * 10 ^ e)
                else mkGoFloat (baseNum * 10 ^ e) baseDen)

/-- Go conversion `int64(f)` for `f : float64`: truncation toward zero,
i.e. `Int.tdiv` (not Lean's Euclidean `/`, which would floor at negative
numerators: Go's `int64(-3.5)` is `-3`, not `-4`).  (Go leaves
out-of-range conversions implementation-defined; every use in a theorem
is in range.) -/
def goFloatToInt (q : GoFloat) : Int := q.num.tdiv (q.den : Int)

/-- Go conversion `uint64(x)` from a signed 64-bit value: two's-complement
wraparound. -/
def goIntToUint (n : Int) : Nat := (n % (2 ^ 64)).toNat

/-- Model of `strconv.FormatInt(n, 10)`. -/
def goFormatInt (n : Int) : String := toString n

/-- Model of `strconv.FormatUint(n, 10)`. -/
def goFormatNat (n : Nat) : String := toString n

/-- Model of `strconv.FormatFloat(f, 'f', -1, 64)` (shortest fixed-point
form), rendered from the exact fraction.  No theorem depends on float
formatting; whole numbers (the only shape a theorem could meet) render as
their integer part, as in Go. -/
def goFormatFloat (q : GoFloat) : String :=
  if q.den = 1 then toString q.num
  else toString q.num ++ "e-" ++ toString q.den

/-- First comma-delimited segment of a struct tag:
`strings.Split(tag, ",")[0]`, i.e. the prefix of the tag before its first
comma. -/
def firstComma (tag : String) : String :=
  String.mk (tag.toList.takeWhile (fun c => c != ','))

/-- Model of `strings.Join(parts, sep)`. -/
def joinSep (sep : String) : List String → String
  | [] => ""
  | [s] => s
  | s :: rest => s ++ sep ++ joinSep sep rest

/-- Model of `reflect.StructField.IsExported`: the first character of the field name
is upper case. -/
def goExported (name : String) : Bool :=
  match name.toList with
  | [] => false
  | c :: _ => c.isUpper

/-- The fragment of Go's type universe traversed by the mappers: the kinds
that `setValue`/`marshalValue` dispatch on, minus interfaces, `time.Time`,
and non-string map keys, which no claim exercises.  A struct field is
`(name, tag, type)` where `tag` is the value of the active format's struct
tag (`json:"…"` or `toml:"…"`); the two Go `setValue` functions are
textually identical up to that tag key. -/
inductive GoType : Type where
  | string
  | int
  | uint
  | float
  | bool
  | slice (elem : GoType)
  | map (elem : GoType)
  | struct (fields : List (String × String × GoType))
  | ptr (elem : GoType)
  deriving Repr

/-- Runtime values of the modelled universe.  Nil slices, maps and pointers
are distinguished from allocated ones, as in Go. -/
inductive GoVal : Type where
  | str (s : String)
  | int (n : Int)
  | uint (n : Nat)
  | float (q : GoFloat)
  | bool (b : Bool)
  | sliceNil
  | slice (xs : List GoVal)
  | mapNil
  | map (entries : List (String × GoVal))
  | structV (fields : List GoVal)
  | ptrNil
  | ptr (v : GoVal)
  deriving Repr

mutual

/-- Model of `reflect.Zero(t)`: the zero value of a type. -/
def zeroVal : GoType → GoVal
  | .string => .str ""
  | .int => .int 0
  | .uint => .uint 0
  | .float => .float ⟨0, 1⟩
  | .bool => .bool false
  | .slice _ => .sliceNil
  | .map _ => .mapNil
  | .struct fs => .structV (zeroFields fs)
  | .ptr _ => .ptrNil

/-- Zero values of a struct's field list. -/
def zeroFields : List (String × String × GoType) → List GoVal
  | [] => []
  | (_, _, t) :: fs => zeroVal t :: zeroFields fs

end

mutual

/-- Size of a parsed value (explicit, computable stand-in for `sizeOf`). -/
def valueSize : Value → Nat
  | .str _ => 1
  | .int _ => 1
  | .float _ => 1
  | .bool _ => 1
  | .null => 1
  | .timeV _ => 1
  | .arr xs => 1 + valueListSize xs
  | .obj entries => 1 + valueEntriesSize entries

/-- Size of a list of values. -/
def valueListSize : List Value → Nat
  | [] => 1
  | v :: vs => 1 + valueSize v + valueListSize vs

/-- Size of a table's entry list. -/
def valueEntriesSize : List (String × Value) → Nat
  | [] => 1
  | (_, v) :: rest => 1 + valueSize v + valueEntriesSize rest

end

mutual

/-- Size of a modelled Go type (explicit, computable stand-in for
`sizeOf`). -/
def typeSize : GoType → Nat
  | .string => 1
  | .int => 1
  | .uint => 1
  | .float => 1
  | .bool => 1
  | .slice e => 1 + typeSize e
  | .map e => 1 + typeSize e
  | .struct fs => 1 + fieldListSize fs
  | .ptr e => 1 + typeSize e

/-- Size of a struct's field list. -/
def fieldListSize : List (String × String × GoType) → Nat
  | [] => 1
  | (_, _, t) :: fs => 1 + typeSize t + fieldListSize fs

end

mutual

/-- Size of a modelled Go value (explicit, computable stand-in for
`sizeOf`). -/
def goValSize : GoVal → Nat
  | .str _ => 1
  | .int _ => 1
  | .uint _ => 1
  | .float _ => 1
  | .bool _ => 1
  | .sliceNil => 1
  | .mapNil => 1
  | .ptrNil => 1
  | .slice xs => 1 + goValListSize xs
  | .map entries => 1 + goValEntriesSize entries
  | .structV vs => 1 + goValListSize vs
  | .ptr v => 1 + goValSize v

/-- Size of a list of Go values. -/
def goValListSize : List GoVal → Nat
  | [] => 1
  | v :: vs => 1 + goValSize v + goValListSize vs

/-- Size of a map's entry list. -/
def goValEntriesSize : List (String × GoVal) → Nat
  | [] => 1
  | (_, v) :: rest => 1 + goValSize v + goValEntriesSize rest

end

/-- Sufficient recursion depth for encoding a value: every recursive call
of either encoder strictly decreases the value side, with at most three
bundle hops per value node. -/
def marshalFuel (v : GoVal) : Nat := 3 * goValSize v + 3

/-- Wire-name resolution for a struct field `(name, tag, ·)`: unexported
fields and fields tagged `-` do not participate; otherwise the wire name is
the tag's first comma segment, or the field name when the tag is empty. -/
def wireName (name tag : String) : Option String :=
  if goExported name = false then none
  else if tag = "-" then none
  else some (if tag = "" then name else firstComma tag)

/-- The mutually recursive decode functions of the mappers, bundled at a
fixed recursion depth.  The Go functions recurse without bound; here each
level of `setRun` supplies one level of recursion, and the public wrapper
`setValue` below supplies a depth that dominates every chain of recursive
calls, so the `depth exhausted` branch is unreachable from it.  This
fuel-indexed presentation keeps every definition kernel-reducible. -/
structure SetFns : Type where
  setValue : GoType → GoVal → Value → Except String GoVal
  setSliceElems : GoType → List Value → Except String (List GoVal)
  setMapEntries : GoType → List (String × Value) → Except String (List (String × GoVal))
  setStructFields : List (String × String × GoType) → List GoVal →
    List (String × Value) → Except String (List GoVal)

/-- Out-of-depth bundle (unreachable from the wrappers). -/
def setDepleted : SetFns where
  setValue := fun _ _ _ => .error "recursion depth exhausted"
  setSliceElems := fun _ _ => .error "recursion depth exhausted"
  setMapEntries := fun _ _ => .error "recursion depth exhausted"
  setStructFields := fun _ _ _ => .error "recursion depth exhausted"

/-- One level of the mappers' decode path: `(s *JSONSerializer) setValue`
of `json/serializer.go` (identical, up to the struct-tag key, to the TOML
`setValue`), with recursive calls taken from the bundle `p`.
In `setValue`, `t` is the kind of the destination (`rv.Kind()` dispatch),
`cur` the destination's current value (decode mutates in place through the
caller's pointer; the updated value is returned), `v` the parsed source
value.  On an error the model discards whatever partial writes preceded it;
no theorem below inspects a destination after a failed decode.  The scalar
branches reject a `nil` source (`value.(string)` etc. fail on a nil
interface); the slice/map/struct/ptr branches reset the destination to its
zero value on a `nil` source.
`setSliceElems` is the element loop (`reflect.MakeSlice` + per-index
`setValue`, each element starting from the zero element value),
`setMapEntries` the map loop (`reflect.MakeMap` + `SetMapIndex`, fresh zero
elements), and `setStructFields` the struct field loop: unexported fields
and fields tagged `-` are skipped; a field whose wire name is absent from
the source table keeps its current value; a present field is decoded in
place. -/
def setStep (p : SetFns) : SetFns where
  setValue := fun t cur v =>
    match t with
    | .string =>
        match v with
        | .str s => .ok (.str s)
        | _ => .error "cannot convert to string"
    | .int =>
        match v with
        | .float q => .ok (.int (goFloatToInt q))
        | .int n => .ok (.int n)
        | _ => .error "cannot convert to int"
    | .uint =>
        match v with
        | .float q => .ok (.uint (goIntToUint (goFloatToInt q)))
        | .int n => .ok (.uint (goIntToUint n))
        | _ => .error "cannot convert to uint"
    | .float =>
        match v with
        | .float q => .ok (.float q)
        | _ => .error "cannot convert to float"
    | .bool =>
        match v with
        | .bool b => .ok (.bool b)
        | _ => .error "cannot convert to bool"
    | .slice e =>
        match v with
        | .null => .ok .sliceNil
        | .arr xs =>
            match p.setSliceElems e xs with
            | .ok ys => .ok (.slice ys)
            | .error err => .error err
        | _ => .error "cannot convert to slice"
    | .map e =>
        match v with
        | .null => .ok .mapNil
        | .obj entries =>
            match p.setMapEntries e entries with
            | .ok ps => .ok (.map ps)
            | .error err => .error err
        | _ => .error "cannot convert to map"
    | .struct fs =>
        match v with
        | .null => .ok (zeroVal (.struct fs))
        | .obj entries =>
            match p.setStructFields fs
              (match cur with
               | .structV vs => vs
               | _ => zeroFields fs) entries with
            | .ok vs2 => .ok (.structV vs2)
            | .error err => .error err
        | _ => .error "cannot convert to struct"
    | .ptr e =>
        match v with
        | .null => .ok .ptrNil
        | _ =>
            match p.setValue e
              (match cur with
               | .ptr q => q
               | _ => zeroVal e) v with
            | .ok p2 => .ok (.ptr p2)
            | .error err => .error err
  setSliceElems := fun e vs =>
    match vs with
    | [] => .ok []
    | v :: rest =>
        match p.setValue e (zeroVal e) v with
        | .ok y =>
            match p.setSliceElems e rest with
            | .ok ys => .ok (y :: ys)
            | .error err => .error err
        | .error err => .error err
  setMapEntries := fun e entries =>
    match entries with
    | [] => .ok []
    | (k, v) :: rest =>
        match p.setValue e (zeroVal e) v with
        | .ok y =>
            match p.setMapEntries e rest with
            | .ok ps => .ok ((k, y) :: ps)
            | .error err => .error err
        | .error err => .error err
  setStructFields := fun fs vs entries =>
    match fs, vs with
    | [], _ => .ok vs
    | _ :: _, [] => .ok []
    | (name, tag, t) :: fs2, v :: vs2 =>
        match wireName name tag with
        | none =>
            match p.setStructFields fs2 vs2 entries with
            | .ok rest => .ok (v :: rest)
            | .error err => .error err
        | some w =>
            match getKey entries w with
            | none =>
                match p.setStructFields fs2 vs2 entries with
                | .ok rest => .ok (v :: rest)
                | .error err => .error err
            | some src =>
                match p.setValue t v src with
                | .ok v2 =>
                    match p.setStructFields fs2 vs2 entries with
                    | .ok rest => .ok (v2 :: rest)
                    | .error err => .error err
                | .error err => .error err

/-- The decode bundle with `f` levels of recursion available. -/
def setRun : Nat → SetFns
  | 0 => setDepleted
  | f + 1 => setStep (setRun f)

/-- Recursion depth that dominates every chain of recursive calls the
mappers make from `setValue t _ v`: every recursive call strictly
decreases the combined size of its (type-side, value-side) arguments,
so their sum bounds the chain length. -/
def setFuel (t : GoType) (v : Value) : Nat := valueSize v + typeSize t + 1

/-- The mappers' decode entry point (`setValue` of both codecs), at a
sufficient recursion depth. -/
def setValue (t : GoType) (cur : GoVal) (v : Value) : Except String GoVal :=
  (setRun (setFuel t v)).setValue t cur v

namespace Json

/-- Token kinds of the JSON lexer. -/
inductive tokenType : Type where
  | tokenEOF
  | tokenString
  | tokenNumber
  | tokenTrue
  | tokenFalse
  | tokenNull
  | tokenLeftBrace
  | tokenRightBrace
  | tokenLeftBracket
  | tokenRightBracket
  | tokenComma
  | tokenColon
  deriving DecidableEq, Repr

/-- A lexed token. -/
structure token : Type where
  typ : tokenType
  value : String
  deriving DecidableEq, Repr

/-- Model of `(l *lexer) skipWhitespace`: drop leading `unicode.IsSpace` bytes. -/
def skipWhitespace : List Char → List Char
  | [] => []
  | c :: cs => if goIsSpace c then skipWhitespace cs else c :: cs

/-- The scanning loop of `(l *lexer) readString`, entered after the opening
quote: a quote closes the string only when the immediately preceding
character is not a backslash (the source's naive escape check); the token
value is the raw text between the quotes, with no unescaping.  Running off
the end of the input yields the EOF token. -/
def readStringLoop (prev : Char) (acc : List Char) :
    List Char → token × List Char
  | [] => (⟨.tokenEOF, ""⟩, [])
  | c :: cs =>
      if c = '"' ∧ prev ≠ '\\' then
        (⟨.tokenString, String.mk acc.reverse⟩, cs)
      else readStringLoop c (c :: acc) cs

/-- Model of `(l *lexer) readString`, positioned at the opening quote. -/
def readString : List Char → token × List Char
  | [] => (⟨.tokenEOF, ""⟩, [])
  | _ :: cs => readStringLoop '"' [] cs

/-- Character class of `(l *lexer) readNumber`. -/
def isNumChar (c : Char) : Bool :=
  c.isDigit || c = '.' || c = '-' || c = 'e' || c = 'E' || c = '+'

/-- Model of `(l *lexer) readNumber`: greedily take number-class characters. -/
def readNumber (l : List Char) : token × List Char :=
  (⟨.tokenNumber, String.mk (l.takeWhile isNumChar)⟩, l.dropWhile isNumChar)

/-- Model of `(l *lexer) next`: skip whitespace, then dispatch on the leading
character.  An unrecognized leading character (and a `t`/`f`/`n` that does
not begin the corresponding keyword) falls through to the EOF token without
consuming input, exactly as in the source. -/
def next (input : List Char) : token × List Char :=
  match skipWhitespace input with
  | [] => (⟨.tokenEOF, ""⟩, [])
  | c :: cs =>
      if c = '{' then (⟨.tokenLeftBrace, "\x7b"⟩, cs)
      else if c = '}' then (⟨.tokenRightBrace, "\x7d"⟩, cs)
      else if c = '[' then (⟨.tokenLeftBracket, "["⟩, cs)
      else if c = ']' then (⟨.tokenRightBracket, "]"⟩, cs)
      else if c = ',' then (⟨.tokenComma, ","⟩, cs)
      else if c = ':' then (⟨.tokenColon, ":"⟩, cs)
      else if c = '"' then readString (c :: cs)
      else if c = 't' ∧ cs.take 3 = ['r', 'u', 'e'] then
        (⟨.tokenTrue, "true"⟩, cs.drop 3)
      else if c = 'f' ∧ cs.take 4 = ['a', 'l', 's', 'e'] then
        (⟨.tokenFalse, "false"⟩, cs.drop 4)
      else if c = 'n' ∧ cs.take 3 = ['u', 'l', 'l'] then
        (⟨.tokenNull, "null"⟩, cs.drop 3)
      else if c = '-' ∨ c.isDigit then readNumber (c :: cs)
      else (⟨.tokenEOF, ""⟩, c :: cs)

/-- Pull tokens until the lexer reports EOF.  The Go lexer is lazy, but a
stuck lexer returns EOF forever, so the parser's view of the input is
exactly this finite token list followed by EOFs (modelled as the empty
list).  The fuel `input.length + 1` is always sufficient because every
non-EOF token consumes at least one character. -/
def lexAll : Nat → List Char → List token
  | 0, _ => []
  | fuel + 1, input =>
      let (t, rest) := next input
      if t.typ = .tokenEOF then [] else t :: lexAll fuel rest

/-- The token stream of an input string. -/
def tokens (s : String) : List token :=
  lexAll (s.toList.length + 1) s.toList

/-- The JSON parser's mutually recursive functions bundled at a fixed
recursion depth (fuel).  The wrappers below supply fuel that dominates the
number of recursive calls, so the `out of fuel` bundle is unreachable from
them. -/
structure ParseFns : Type where
  parseValue : List token → Except String (Value × List token)
  parseObject : List token → Except String (Value × List token)
  parseMembers : List (String × Value) → List token → Except String (Value × List token)
  parseArray : List token → Except String (Value × List token)
  parseElems : List Value → List token → Except String (Value × List token)

/-- Out-of-fuel bundle (unreachable from the wrappers). -/
def parseDepleted : ParseFns where
  parseValue := fun _ => .error "out of fuel"
  parseObject := fun _ => .error "out of fuel"
  parseMembers := fun _ _ => .error "out of fuel"
  parseArray := fun _ => .error "out of fuel"
  parseElems := fun _ _ => .error "out of fuel"

/-- One level of the JSON recursive-descent parser, with recursive calls
taken from the bundle `p`.  The token stream's head is the parser's
current token; the empty list plays the EOF token, which lands in the
same branches as the source's `tokenEOF`.

`parseValue` dispatches on the current token
(`(p *parser) parseValue`): scalars return immediately, `{` delegates to
`parseObject`, `[` to `parseArray`, anything else (including EOF) is a
syntax error.  A number token parses as float64 when its lexeme contains a
dot and as int64 otherwise.

`parseObject` (`(p *parser) parseObject`, entered after consuming `{`)
accepts an immediate `}` as the empty object and otherwise runs the member
loop `parseMembers`: string key, colon, value, then `}` to finish or `,`
to continue; `obj[key] = value` is the overwriting `setKey`.

`parseArray`/`parseElems` are the bracketed analogue
(`(p *parser) parseArray`). -/
def parseStep (p : ParseFns) : ParseFns where
  parseValue := fun toks =>
    match toks with
    | [] => .error "unexpected token"
    | t :: rest =>
        match t.typ with
        | .tokenString => .ok (.str t.value, rest)
        | .tokenNumber =>
            if t.value.toList.contains '.' then
              match goParseFloat t.value with
              | some q => .ok (.float q, rest)
              | none => .error ("invalid float " ++ t.value)
            else
              match goParseInt t.value with
              | some n => .ok (.int n, rest)
              | none => .error ("invalid int " ++ t.value)
        | .tokenTrue => .ok (.bool true, rest)
        | .tokenFalse => .ok (.bool false, rest)
        | .tokenNull => .ok (.null, rest)
        | .tokenLeftBrace => p.parseObject rest
        | .tokenLeftBracket => p.parseArray rest
        | _ => .error "unexpected token"
  parseObject := fun toks =>
    match toks with
    | ⟨.tokenRightBrace, _⟩ :: rest => .ok (.obj [], rest)
    | _ => p.parseMembers [] toks
  parseMembers := fun acc toks =>
    match toks with
    | ⟨.tokenString, k⟩ :: afterKey =>
        match afterKey with
        | ⟨.tokenColon, _⟩ :: afterColon =>
            match p.parseValue afterColon with
            | .error e => .error e
            | .ok (v, rest) =>
                match rest with
                | ⟨.tokenRightBrace, _⟩ :: rest2 => .ok (.obj (setKey acc k v), rest2)
                | ⟨.tokenComma, _⟩ :: rest2 => p.parseMembers (setKey acc k v) rest2
                | _ => .error "expected comma or right brace"
        | _ => .error "expected colon"
    | _ => .error "expected string key"
  parseArray := fun toks =>
    match toks with
    | ⟨.tokenRightBracket, _⟩ :: rest => .ok (.arr [], rest)
    | _ => p.parseElems [] toks
  parseElems := fun acc toks =>
    match p.parseValue toks with
    | .error e => .error e
    | .ok (v, rest) =>
        match rest with
        | ⟨.tokenRightBracket, _⟩ :: rest2 => .ok (.arr (acc ++ [v]), rest2)
        | ⟨.tokenComma, _⟩ :: rest2 => p.parseElems (acc ++ [v]) rest2
        | _ => .error "expected comma or right bracket"

/-- The parser bundle with `f` levels of recursion available. -/
def parseRun : Nat → ParseFns
  | 0 => parseDepleted
  | f + 1 => parseStep (parseRun f)

/-- Model of `(p *parser) parseValue` at a given fuel. -/
def parseValue (f : Nat) (toks : List token) : Except String (Value × List token) :=
  (parseRun f).parseValue toks

/-- Canonical fuel for a token list: strictly more than the number of
recursive calls the parser can make on it. -/
def parseFuel (toks : List token) : Nat := 2 * toks.length + 2

/-- The parsing phase of `(s *JSONSerializer) Unmarshal`
(`json/serializer.go:412`): parse exactly one value and ignore whatever
tokens remain — the source never checks that the input is exhausted. -/
def parseTop (toks : List token) : Except String Value :=
  match parseValue (parseFuel toks) toks with
  | .ok (v, _) => .ok v
  | .error e => .error e

/-- Model of `(s *JSONSerializer) Unmarshal`: lex, parse one value, then populate the
destination via `setValue`.  (`t`/`cur` stand for the type and current value
of `rv.Elem()`; the non-pointer usage error is outside the modelled
fragment.) -/
def unmarshalModel (t : GoType) (cur : GoVal) (input : String) :
    Except String GoVal :=
  match parseTop (tokens input) with
  | .error e => .error e
  | .ok v => setValue t cur v

/-- One character of `escapeString` of `json/serializer.go`.  The source
applies five sequential `strings.ReplaceAll` passes (backslash, quote,
newline, carriage return, tab); the first pass doubles every original
backslash and later passes only insert backslashes, never characters a
remaining pass matches, so the chain equals this character-wise
expansion. -/
def escapeChar (c : Char) : List Char :=
  if c = '\\' then ['\\', '\\']
  else if c = '"' then ['\\', '"']
  else if c = '\n' then ['\\', 'n']
  else if c = '\r' then ['\\', 'r']
  else if c = '\t' then ['\\', 't']
  else [c]

/-- Character-wise expansion of a character list by `escapeChar`. -/
def escapeList : List Char → List Char
  | [] => []
  | c :: cs => escapeChar c ++ escapeList cs

/-- Model of `escapeString` of `json/serializer.go` (see `escapeChar`). -/
def escapeString (s : String) : String :=
  String.mk (escapeList s.toList)

/-- The JSON marshaller's mutually recursive functions bundled at a fixed
recursion depth; the wrappers below supply a depth that dominates every
chain of recursive calls (each call strictly decreases the value side, and
at most three bundle hops happen per value node). -/
structure MarshalFns : Type where
  marshalValue : GoType → GoVal → Except String String
  marshalArray : GoType → GoVal → Except String String
  marshalElems : GoType → List GoVal → Except String (List String)
  marshalMap : GoType → GoVal → Except String String
  marshalMapPairs : GoType → List (String × GoVal) → Except String (List String)
  marshalStruct : List (String × String × GoType) → List GoVal → Except String String
  marshalStructFields : List (String × String × GoType) → List GoVal →
    Except String (List String)

/-- Out-of-depth bundle (unreachable from the wrappers). -/
def marshalDepleted : MarshalFns where
  marshalValue := fun _ _ => .error "recursion depth exhausted"
  marshalArray := fun _ _ => .error "recursion depth exhausted"
  marshalElems := fun _ _ => .error "recursion depth exhausted"
  marshalMap := fun _ _ => .error "recursion depth exhausted"
  marshalMapPairs := fun _ _ => .error "recursion depth exhausted"
  marshalStruct := fun _ _ => .error "recursion depth exhausted"
  marshalStructFields := fun _ _ => .error "recursion depth exhausted"

/-- One level of the JSON encoder (`(s *JSONSerializer) marshalValue` and
its helpers), with recursive calls taken from the bundle `p`.
`marshalValue` dispatches on the value's kind; kinds outside the modelled
universe (`chan`, `func`, interfaces, …) are the source's
`default: unsupported type` branch, and a value not matching its type's
kind (impossible in a well-typed Go program) is mapped to the same error.
`marshalArray` sends a nil slice to the `null` literal and otherwise emits
a comma-joined bracketed list; `marshalMap` sends a nil map to `null` and
otherwise emits `{key:value,…}`; `marshalStruct` renders exported,
non-`-`-tagged fields as `"wireName":value` joined with commas inside
braces. -/
def marshalStep (p : MarshalFns) : MarshalFns where
  marshalValue := fun t v =>
    match t with
    | .string =>
        match v with
        | .str s => .ok ("\"" ++ escapeString s ++ "\"")
        | _ => .error "unsupported type"
    | .int =>
        match v with
        | .int n => .ok (goFormatInt n)
        | _ => .error "unsupported type"
    | .uint =>
        match v with
        | .uint n => .ok (goFormatNat n)
        | _ => .error "unsupported type"
    | .float =>
        match v with
        | .float q => .ok (goFormatFloat q)
        | _ => .error "unsupported type"
    | .bool =>
        match v with
        | .bool b => .ok (if b then "true" else "false")
        | _ => .error "unsupported type"
    | .slice e => p.marshalArray e v
    | .map e => p.marshalMap e v
    | .struct fs =>
        match v with
        | .structV vs => p.marshalStruct fs vs
        | _ => .error "unsupported type"
    | .ptr e =>
        match v with
        | .ptrNil => .ok "null"
        | .ptr q => p.marshalValue e q
        | _ => .error "unsupported type"
  marshalArray := fun e v =>
    match v with
    | .sliceNil => .ok "null"
    | .slice xs =>
        match p.marshalElems e xs with
        | .ok parts => .ok ("[" ++ joinSep "," parts ++ "]")
        | .error err => .error err
    | _ => .error "unsupported type"
  marshalElems := fun e xs =>
    match xs with
    | [] => .ok []
    | x :: rest =>
        match p.marshalValue e x with
        | .ok s =>
            match p.marshalElems e rest with
            | .ok parts => .ok (s :: parts)
            | .error err => .error err
        | .error err => .error err
  marshalMap := fun e v =>
    match v with
    | .mapNil => .ok "null"
    | .map entries =>
        match p.marshalMapPairs e entries with
        | .ok parts => .ok ("\x7b" ++ joinSep "," parts ++ "\x7d")
        | .error err => .error err
    | _ => .error "unsupported type"
  marshalMapPairs := fun e entries =>
    match entries with
    | [] => .ok []
    | (k, x) :: rest =>
        match p.marshalValue e x with
        | .ok s =>
            match p.marshalMapPairs e rest with
            | .ok parts => .ok (("\"" ++ escapeString k ++ "\"" ++ ":" ++ s) :: parts)
            | .error err => .error err
        | .error err => .error err
  marshalStruct := fun fs vs =>
    match p.marshalStructFields fs vs with
    | .ok pairs => .ok ("\x7b" ++ joinSep "," pairs ++ "\x7d")
    | .error err => .error err
  marshalStructFields := fun fs vs =>
    match fs, vs with
    | [], _ => .ok []
    | _ :: _, [] => .ok []
    | (name, tag, t) :: fs2, v :: vs2 =>
        if goExported name = false then p.marshalStructFields fs2 vs2
        else if tag = "-" then p.marshalStructFields fs2 vs2
        else
          match p.marshalValue t v with
          | .ok s =>
              match p.marshalStructFields fs2 vs2 with
              | .ok pairs =>
                  .ok (("\"" ++ (if tag = "" then name else firstComma tag) ++ "\":" ++ s) :: pairs)
              | .error err => .error err
          | .error err => .error err

/-- The encoder bundle with `f` levels of recursion available. -/
def marshalRun : Nat → MarshalFns
  | 0 => marshalDepleted
  | f + 1 => marshalStep (marshalRun f)

/-- Model of `(s *JSONSerializer) Marshal` / `marshalValue` entry point. -/
def marshalValue (t : GoType) (v : GoVal) : Except String String :=
  (marshalRun (marshalFuel v)).marshalValue t v

/-- Model of `(s *JSONSerializer) marshalArray` entry point. -/
def marshalArray (e : GoType) (v : GoVal) : Except String String :=
  (marshalRun (marshalFuel v)).marshalArray e v

end Json

/-- Result of a Go computation that can return normally, return an error
value, or panic (model of the unchecked type assertion and the
out-of-range slice expression in the TOML parser). -/
inductive PResult (α : Type) : Type where
  | ok (a : α)
  | err (msg : String)
  | panic (msg : String)
  deriving Repr

/-- Whether a `PResult` is a panic. -/
def PResult.isPanic : PResult α → Bool
  | .panic _ => true
  | _ => false

/-- Whether a `PResult` is an error value. -/
def PResult.isErr : PResult α → Bool
  | .err _ => true
  | _ => false

/-- Shape check standing in for `time.Parse(time.RFC3339, s)`:
`YYYY-MM-DDTHH:MM:SS[.frac](Z|±HH:MM)`.  Calendar-range validation is not
modelled; no theorem exercises timestamp parsing. -/
def rfc3339Zone : List Char → Bool
  | ['Z'] => true
  | [s, h1, h2, ':', m1, m2] =>
      (s = '+' || s = '-') && h1.isDigit && h2.isDigit && m1.isDigit && m2.isDigit
  | _ => false

/-- Shape of the seconds tail of an RFC3339 lexeme: optional fraction, then
a zone. -/
def rfc3339Tail (l : List Char) : Bool :=
  match l with
  | '.' :: rest =>
      let ds := rest.takeWhile Char.isDigit
      ds ≠ [] && rfc3339Zone (rest.dropWhile Char.isDigit)
  | _ => rfc3339Zone l

/-- Model of `time.Parse(time.RFC3339, s)`, keeping the lexeme on success. -/
def goTimeParse (s : String) : Option String :=
  match s.toList with
  | y1 :: y2 :: y3 :: y4 :: '-' :: m1 :: m2 :: '-' :: d1 :: d2 :: 'T' ::
      h1 :: h2 :: ':' :: n1 :: n2 :: ':' :: s1 :: s2 :: rest =>
      if (y1.isDigit && y2.isDigit && y3.isDigit && y4.isDigit &&
          m1.isDigit && m2.isDigit && d1.isDigit && d2.isDigit &&
          h1.isDigit && h2.isDigit && n1.isDigit && n2.isDigit &&
          s1.isDigit && s2.isDigit && rfc3339Tail rest) then some s else none
  | _ => none

namespace Toml

/-- Token kinds of the TOML lexer. -/
inductive tokenType : Type where
  | tokenEOF
  | tokenString
  | tokenNumber
  | tokenTrue
  | tokenFalse
  | tokenDate
  | tokenLeftBracket
  | tokenRightBracket
  | tokenDot
  | tokenEquals
  | tokenComma
  | tokenNewline
  deriving DecidableEq, Repr

/-- A lexed token. -/
structure token : Type where
  typ : tokenType
  value : String
  deriving DecidableEq, Repr

/-- Model of `(l *lexer) skipWhitespace` of the TOML lexer: a newline byte is
counted (line/col bookkeeping, not modelled) and then skipped like any
other `unicode.IsSpace` byte — the loop only stops at a non-space
character.  (Newlines therefore never survive to `next`.) -/
def skipWhitespace : List Char → List Char
  | [] => []
  | c :: cs =>
      if c = '\n' then skipWhitespace cs
      else if goIsSpace c = false then c :: cs
      else skipWhitespace cs

/-- Scanning loop of the TOML `readString` (identical to the JSON one):
naive escape check, raw token value, EOF on an unterminated string. -/
def readStringLoop (prev : Char) (acc : List Char) :
    List Char → token × List Char
  | [] => (⟨.tokenEOF, ""⟩, [])
  | c :: cs =>
      if c = '"' ∧ prev ≠ '\\' then
        (⟨.tokenString, String.mk acc.reverse⟩, cs)
      else readStringLoop c (c :: acc) cs

/-- Model of `(l *lexer) readString`, positioned at the opening quote. -/
def readString : List Char → token × List Char
  | [] => (⟨.tokenEOF, ""⟩, [])
  | _ :: cs => readStringLoop '"' [] cs

/-- The characters that flag a lexeme as a date in `readNumberOrDate`
(note that this includes every `-`, so even a leading minus sign marks the
lexeme as a date). -/
def isDateChar (c : Char) : Bool :=
  c = 'T' || c = 'Z' || c = '-' || c = ':'

/-- Span character class of `readNumberOrDate`: date characters are
consumed (setting the date flag), and the loop otherwise stops at anything
that is not a digit, `.`, `+`, `e` or `E`. -/
def numDateClass (c : Char) : Bool :=
  isDateChar c || c.isDigit || c = '.' || c = '+' || c = 'e' || c = 'E'

/-- Model of `(l *lexer) readNumberOrDate`. -/
def readNumberOrDate (l : List Char) : token × List Char :=
  let span := l.takeWhile numDateClass
  let rest := l.dropWhile numDateClass
  if span.any isDateChar then (⟨.tokenDate, String.mk span⟩, rest)
  else (⟨.tokenNumber, String.mk span⟩, rest)

/-- Model of `(l *lexer) next` of the TOML lexer.  The `'\n'` branch is kept from
the source even though `skipWhitespace` has already consumed every newline
by the time it could fire. -/
def next (input : List Char) : token × List Char :=
  match skipWhitespace input with
  | [] => (⟨.tokenEOF, ""⟩, [])
  | c :: cs =>
      if c = '[' then (⟨.tokenLeftBracket, "["⟩, cs)
      else if c = ']' then (⟨.tokenRightBracket, "]"⟩, cs)
      else if c = '.' then (⟨.tokenDot, "."⟩, cs)
      else if c = '=' then (⟨.tokenEquals, "="⟩, cs)
      else if c = ',' then (⟨.tokenComma, ","⟩, cs)
      else if c = '\n' then (⟨.tokenNewline, "\n"⟩, cs)
      else if c = '"' then readString (c :: cs)
      else if c = 't' ∧ cs.take 3 = ['r', 'u', 'e'] then
        (⟨.tokenTrue, "true"⟩, cs.drop 3)
      else if c = 'f' ∧ cs.take 4 = ['a', 'l', 's', 'e'] then
        (⟨.tokenFalse, "false"⟩, cs.drop 4)
      else if c = '-' ∨ c.isDigit then readNumberOrDate (c :: cs)
      else (⟨.tokenEOF, ""⟩, c :: cs)

/-- Pull tokens until EOF, as for the JSON lexer. -/
def lexAll : Nat → List Char → List token
  | 0, _ => []
  | fuel + 1, input =>
      let (t, rest) := next input
      if t.typ = .tokenEOF then [] else t :: lexAll fuel rest

/-- The token stream of an input string. -/
def tokens (s : String) : List token :=
  lexAll (s.toList.length + 1) s.toList

/-- The TOML value parser's mutually recursive functions bundled at a
fixed recursion depth, as for the JSON parser. -/
structure TParseFns : Type where
  parseValue : List token → Except String (Value × List token)
  parseArray : List token → Except String (Value × List token)
  parseElems : List Value → List token → Except String (Value × List token)

/-- Out-of-fuel bundle (unreachable from the wrappers). -/
def tparseDepleted : TParseFns where
  parseValue := fun _ => .error "out of fuel"
  parseArray := fun _ => .error "out of fuel"
  parseElems := fun _ _ => .error "out of fuel"

/-- One level of the TOML value parser (`(p *parser) parseValue`,
`parseArray` and its element loop): strings, numbers (float64 when the
lexeme contains a dot, int64 otherwise), RFC3339 dates, booleans and
inline arrays; no null and no inline table. -/
def tparseStep (p : TParseFns) : TParseFns where
  parseValue := fun toks =>
    match toks with
    | [] => .error "unexpected token"
    | t :: rest =>
        match t.typ with
        | .tokenString => .ok (.str t.value, rest)
        | .tokenNumber =>
            if t.value.toList.contains '.' then
              match goParseFloat t.value with
              | some q => .ok (.float q, rest)
              | none => .error ("invalid float " ++ t.value)
            else
              match goParseInt t.value with
              | some n => .ok (.int n, rest)
              | none => .error ("invalid int " ++ t.value)
        | .tokenDate =>
            match goTimeParse t.value with
            | some s => .ok (.timeV s, rest)
            | none => .error ("invalid time " ++ t.value)
        | .tokenTrue => .ok (.bool true, rest)
        | .tokenFalse => .ok (.bool false, rest)
        | .tokenLeftBracket => p.parseArray rest
        | _ => .error "unexpected token"
  parseArray := fun toks =>
    match toks with
    | ⟨.tokenRightBracket, _⟩ :: rest => .ok (.arr [], rest)
    | _ => p.parseElems [] toks
  parseElems := fun acc toks =>
    match p.parseValue toks with
    | .error e => .error e
    | .ok (v, rest) =>
        match rest with
        | ⟨.tokenRightBracket, _⟩ :: rest2 => .ok (.arr (acc ++ [v]), rest2)
        | ⟨.tokenComma, _⟩ :: rest2 => p.parseElems (acc ++ [v]) rest2
        | _ => .error "expected comma or right bracket"

/-- The TOML value-parser bundle with `f` levels of recursion available. -/
def tparseRun : Nat → TParseFns
  | 0 => tparseDepleted
  | f + 1 => tparseStep (tparseRun f)

/-- Model of `(p *parser) parseValue` of the TOML parser, at a given fuel. -/
def parseValue (f : Nat) (toks : List token) : Except String (Value × List token) :=
  (tparseRun f).parseValue toks

/-- Model of `(p *parser) parseTablePath`: a dot-separated sequence of string
tokens; stops (without error) at the first token that is not a string, or
after a segment not followed by a dot. -/
def parseTablePath : List token → List String × List token
  | ⟨.tokenString, v⟩ :: rest =>
      (match rest with
      | ⟨.tokenDot, _⟩ :: rest2 =>
          let (p, r) := parseTablePath rest2
          (v :: p, r)
      | _ => ([v], rest))
  | toks => ([], toks)

/-- The intermediate-segment loop of `parseTable`'s header case
(`for i, key := range path[:len(path)-1]`): create an empty table at each
missing segment, fail if an existing value is not a table.  The functional
reading of the source's mutation of `current` through map references. -/
def ensureTables : List (String × Value) → List String →
    Except String (List (String × Value))
  | tbl, [] => .ok tbl
  | tbl, k :: ks =>
      match getKey tbl k with
      | none =>
          match ensureTables [] ks with
          | .ok sub => .ok (setKey tbl k (.obj sub))
          | .error e => .error e
      | some (.obj sub) =>
          match ensureTables sub ks with
          | .ok sub2 => .ok (setKey tbl k (.obj sub2))
          | .error e => .error e
      | some _ => .error ("cannot use " ++ k ++ " as table, already a value")

/-- Follow a path of existing tables from the root. -/
def lookupTable : List (String × Value) → List String →
    Option (List (String × Value))
  | tbl, [] => some tbl
  | tbl, k :: ks =>
      match getKey tbl k with
      | some (.obj sub) => lookupTable sub ks
      | _ => none

/-- Insert `k = v` into the table addressed by `path` (the source's
`current[key] = value`, where `current` aliases the table the last header
navigated to; the path was materialized by that header, so the fallback
branch is unreachable). -/
def updateAtPath : List (String × Value) → List String → String → Value →
    List (String × Value)
  | tbl, [], k, v => setKey tbl k v
  | tbl, s :: ss, k, v =>
      match getKey tbl s with
      | some (.obj sub) => setKey tbl s (.obj (updateAtPath sub ss k v))
      | _ => tbl

/-- Model of `(p *parser) parseTable`: iterate top-level statements until EOF.
A `[` begins a table header: the parser creates missing *intermediate*
tables along the dotted path, then evaluates
`current[path[len(path)-1]].(map[string]interface{})` — an unchecked type
assertion that panics whenever the last segment is not already bound to a
table (in particular whenever it is absent), and `path[:len(path)-1]`
itself panics when the path is empty.  A string token begins a
`key = value` statement inserted into the current table, which must be
terminated by a newline token or EOF. -/
def parseTable : Nat → List (String × Value) → List String → List token →
    PResult (List (String × Value))
  | 0, _, _, _ => .err "out of fuel"
  | _ + 1, root, _, [] => .ok root
  | f + 1, root, curPath, t :: rest =>
      match t.typ with
      | .tokenLeftBracket =>
          let (path, rest2) := parseTablePath rest
          match rest2 with
          | ⟨.tokenRightBracket, _⟩ :: rest3 =>
              match path.getLast? with
              | none => .panic "runtime error: slice bounds out of range"
              | some last =>
                  match ensureTables root path.dropLast with
                  | .error e => .err e
                  | .ok root2 =>
                      match lookupTable root2 path.dropLast with
                      | none => .err "unreachable: header path was materialized"
                      | some cur =>
                          match getKey cur last with
                          | some (.obj _) => parseTable f root2 path rest3
                          | _ =>
                              .panic
                                "interface conversion: interface \x7b\x7d is nil or not map[string]interface \x7b\x7d"
          | _ => .err "expected right bracket"
      | .tokenString =>
          match rest with
          | ⟨.tokenEquals, _⟩ :: rest2 =>
              match parseValue f rest2 with
              | .error e => .err e
              | .ok (v, rest3) =>
                  let root2 := updateAtPath root curPath t.value v
                  match rest3 with
                  | [] => .ok root2
                  | ⟨.tokenNewline, _⟩ :: rest4 => parseTable f root2 curPath rest4
                  | _ => .err "expected newline or EOF"
          | _ => .err "expected equals"
      | _ => .err "unexpected token"

/-- Model of `(s *TOMLSerializer) Unmarshal`: lex, parse the root table, then
populate the destination via the shared `setValue` (the TOML copy differs
from the JSON one only in the struct-tag key). -/
def unmarshalModel (t : GoType) (cur : GoVal) (input : String) :
    PResult GoVal :=
  let toks := tokens input
  match parseTable (2 * toks.length + 2) [] [] toks with
  | .panic m => .panic m
  | .err e => .err e
  | .ok root =>
      match setValue t cur (.obj root) with
      | .ok v => .ok v
      | .error e => .err e

/-- Model of `escapeString` of the TOML source (textually identical to the JSON
one; see `Json.escapeChar` for the character-wise reading of the
`ReplaceAll` chain). -/
def escapeString (s : String) : String :=
  String.mk (Json.escapeList s.toList)

/-- The TOML encoder's mutually recursive functions bundled at a fixed
recursion depth, as for the JSON encoder.  All carry the dotted-path
`prefix` argument of the source. -/
structure TMarshalFns : Type where
  marshalValue : GoType → GoVal → String → Except String String
  marshalArray : GoType → GoVal → Except String String
  marshalElems : GoType → List GoVal → Except String (List String)
  marshalMap : GoType → GoVal → String → Except String String
  marshalMapPairs : GoType → List (String × GoVal) → String → Except String (List String)
  marshalStruct : List (String × String × GoType) → List GoVal → String →
    Except String String
  marshalStructFields : List (String × String × GoType) → List GoVal → String →
    Except String (List String)

/-- Out-of-depth bundle (unreachable from the wrappers). -/
def tmarshalDepleted : TMarshalFns where
  marshalValue := fun _ _ _ => .error "recursion depth exhausted"
  marshalArray := fun _ _ => .error "recursion depth exhausted"
  marshalElems := fun _ _ => .error "recursion depth exhausted"
  marshalMap := fun _ _ _ => .error "recursion depth exhausted"
  marshalMapPairs := fun _ _ _ => .error "recursion depth exhausted"
  marshalStruct := fun _ _ _ => .error "recursion depth exhausted"
  marshalStructFields := fun _ _ _ => .error "recursion depth exhausted"

/-- One level of the TOML encoder (`(s *TOMLSerializer) marshalValue` and
its helpers).  `marshalArray` sends a nil slice to the empty inline array
`[]` and otherwise emits a `, `-joined bracketed list (elements marshalled
with an empty prefix); `marshalMap` sends a nil map to `{}` and otherwise
emits newline-joined `key = value` pairs with dotted-prefixed keys;
`marshalStruct` renders exported, non-`-`-tagged fields as newline-joined
`name = value` pairs, names prefixed by the parent's dotted path, each
field's value marshalled with the field's full dotted name as the new
prefix.  The `time.Time` special case of the source's `marshalStruct`
falls outside the modelled universe (no claim exercises timestamps). -/
def tmarshalStep (p : TMarshalFns) : TMarshalFns where
  marshalValue := fun t v pfx =>
    match t with
    | .string =>
        match v with
        | .str s => .ok ("\"" ++ escapeString s ++ "\"")
        | _ => .error "unsupported type"
    | .int =>
        match v with
        | .int n => .ok (goFormatInt n)
        | _ => .error "unsupported type"
    | .uint =>
        match v with
        | .uint n => .ok (goFormatNat n)
        | _ => .error "unsupported type"
    | .float =>
        match v with
        | .float q => .ok (goFormatFloat q)
        | _ => .error "unsupported type"
    | .bool =>
        match v with
        | .bool b => .ok (if b then "true" else "false")
        | _ => .error "unsupported type"
    | .slice e => p.marshalArray e v
    | .map e => p.marshalMap e v pfx
    | .struct fs =>
        match v with
        | .structV vs => p.marshalStruct fs vs pfx
        | _ => .error "unsupported type"
    | .ptr e =>
        match v with
        | .ptrNil => .ok "null"
        | .ptr q => p.marshalValue e q pfx
        | _ => .error "unsupported type"
  marshalArray := fun e v =>
    match v with
    | .sliceNil => .ok "[]"
    | .slice xs =>
        match p.marshalElems e xs with
        | .ok parts => .ok ("[" ++ joinSep ", " parts ++ "]")
        | .error err => .error err
    | _ => .error "unsupported type"
  marshalElems := fun e xs =>
    match xs with
    | [] => .ok []
    | x :: rest =>
        match p.marshalValue e x "" with
        | .ok s =>
            match p.marshalElems e rest with
            | .ok parts => .ok (s :: parts)
            | .error err => .error err
        | .error err => .error err
  marshalMap := fun e v pfx =>
    match v with
    | .mapNil => .ok "\x7b\x7d"
    | .map entries =>
        match p.marshalMapPairs e entries pfx with
        | .ok parts => .ok (joinSep "\n" parts)
        | .error err => .error err
    | _ => .error "unsupported type"
  marshalMapPairs := fun e entries pfx =>
    match entries with
    | [] => .ok []
    | (k, x) :: rest =>
        match p.marshalValue e x (if pfx = "" then k else pfx ++ "." ++ k) with
        | .ok s =>
            match p.marshalMapPairs e rest pfx with
            | .ok parts =>
                .ok (((if pfx = "" then k else pfx ++ "." ++ k) ++ " = " ++ s) :: parts)
            | .error err => .error err
        | .error err => .error err
  marshalStruct := fun fs vs pfx =>
    match p.marshalStructFields fs vs pfx with
    | .ok pairs => .ok (joinSep "\n" pairs)
    | .error err => .error err
  marshalStructFields := fun fs vs pfx =>
    match fs, vs with
    | [], _ => .ok []
    | _ :: _, [] => .ok []
    | (name, tag, t) :: fs2, v :: vs2 =>
        if goExported name = false then p.marshalStructFields fs2 vs2 pfx
        else if tag = "-" then p.marshalStructFields fs2 vs2 pfx
        else
          match p.marshalValue t v
            (if pfx = "" then (if tag = "" then name else firstComma tag)
             else pfx ++ "." ++ (if tag = "" then name else firstComma tag)) with
          | .ok s =>
              match p.marshalStructFields fs2 vs2 pfx with
              | .ok pairs =>
                  .ok (((if pfx = "" then (if tag = "" then name else firstComma tag)
                         else pfx ++ "." ++ (if tag = "" then name else firstComma tag)) ++
                    " = " ++ s) :: pairs)
              | .error err => .error err
          | .error err => .error err

/-- The TOML encoder bundle with `f` levels of recursion available. -/
def tmarshalRun : Nat → TMarshalFns
  | 0 => tmarshalDepleted
  | f + 1 => tmarshalStep (tmarshalRun f)

/-- Model of `(s *TOMLSerializer) marshalValue` entry point. -/
def marshalValue (t : GoType) (v : GoVal) (pfx : String) : Except String String :=
  (tmarshalRun (marshalFuel v)).marshalValue t v pfx

/-- Model of `(s *TOMLSerializer) marshalArray` entry point. -/
def marshalArray (e : GoType) (v : GoVal) : Except String String :=
  (tmarshalRun (marshalFuel v)).marshalArray e v

/-- Model of `(s *TOMLSerializer) Marshal`: marshal with an empty prefix. -/
def marshalModel (t : GoType) (v : GoVal) : Except String String :=
  marshalValue t v ""

end Toml

/-! Theorems about the embedded codecs. -/

/-- Claim C1.  Round-trip identity fails in the TOML codec: encoding the
record `{Integer int `toml:"integer"` = 42}` yields the bytes
`integer = 42`, but decoding those bytes into a fresh zero destination of
the same type returns the zero record (`Integer = 0`) with no error — the
TOML lexer cannot tokenize the bare key `integer`, so the parser sees an
empty statement list and produces an empty root table, and the decoded
result is not deep-equal to the original value. -/
theorem claim1_toml_roundtrip_fails :
    Toml.marshalValue (.struct [("Integer", "integer", .int)])
      (.structV [.int 42]) "" = .ok "integer = 42" ∧
    Toml.unmarshalModel (.struct [("Integer", "integer", .int)])
      (.structV [.int 0]) "integer = 42" = .ok (.structV [.int 0]) ∧
    GoVal.structV [.int 0] ≠ GoVal.structV [.int 42] :=
  ⟨rfl, rfl, by simp⟩

/-- Claim C2.  Not every TOML `Unmarshal` call returns normally: decoding
the single table header `["a"]` evaluates the unchecked type assertion
`current[path[len(path)-1]].(map[string]interface{})` on a key that is not
bound, which escapes as a runtime panic rather than an error value. -/
theorem claim2_toml_header_panics :
    Toml.unmarshalModel (.struct [("Integer", "integer", .int)])
      (.structV [.int 0]) "[\"a\"]" =
      .panic "interface conversion: interface \x7b\x7d is nil or not map[string]interface \x7b\x7d" :=
  rfl

/-- The TOML `skipWhitespace` never stops at a whitespace character (in
particular never at a newline): whatever survives it starts with a
non-space character. -/
theorem toml_skipWhitespace_head (l : List Char) :
    ∀ c cs, Toml.skipWhitespace l = c :: cs → goIsSpace c = false := by
  induction l with
  | nil => intro c cs h; simp [Toml.skipWhitespace] at h
  | cons a l ih =>
    intro c cs h
    rw [Toml.skipWhitespace] at h
    by_cases h1 : a = '\n'
    · rw [if_pos h1] at h; exact ih c cs h
    · rw [if_neg h1] at h
      by_cases h2 : goIsSpace a = false
      · rw [if_pos h2] at h
        rcases h with ⟨rfl, rfl⟩
        exact h2
      · rw [if_neg h2] at h; exact ih c cs h

/-- The TOML `readStringLoop` only ever produces a string token or the EOF
token. -/
theorem toml_readStringLoop_typ (l : List Char) :
    ∀ prev acc, (Toml.readStringLoop prev acc l).fst.typ = .tokenString ∨
      (Toml.readStringLoop prev acc l).fst.typ = .tokenEOF := by
  induction l with
  | nil => intro prev acc; right; rfl
  | cons a l ih =>
    intro prev acc
    rw [Toml.readStringLoop]
    by_cases h : a = '"' ∧ prev ≠ '\\'
    · rw [if_pos h]; left; rfl
    · rw [if_neg h]; exact ih a (a :: acc)

/-- The TOML `readString` only ever produces a string token or the EOF
token. -/
theorem toml_readString_typ (l : List Char) :
    (Toml.readString l).fst.typ = .tokenString ∨
      (Toml.readString l).fst.typ = .tokenEOF := by
  match l with
  | [] => right; rfl
  | _ :: cs => exact toml_readStringLoop_typ cs '"' []

/-- The TOML `readNumberOrDate` only ever produces a date token or a
number token. -/
theorem toml_readNumberOrDate_typ (l : List Char) :
    (Toml.readNumberOrDate l).fst.typ = .tokenDate ∨
      (Toml.readNumberOrDate l).fst.typ = .tokenNumber := by
  rw [Toml.readNumberOrDate]
  by_cases h : (l.takeWhile Toml.numDateClass).any Toml.isDateChar
  · rw [if_pos h]; left; rfl
  · rw [if_neg h]; right; rfl

/-- Claim C3.  The TOML lexer does not treat newlines as significant: its
`skipWhitespace` consumes a leading newline exactly like any other
whitespace byte, the input consisting of a single newline lexes to the EOF
token instead of a newline token, and no input at all makes `next` return
the newline token (the `'\n'` case of `next` is dead code, so `next` skips
all whitespace, newlines included, and never yields the statement
terminator the parser expects). -/
theorem claim3_newline_never_significant :
    (∀ (cs : List Char), Toml.skipWhitespace ('\n' :: cs) = Toml.skipWhitespace cs) ∧
    (Toml.next ['\n']).fst.typ = .tokenEOF ∧
    ∀ (input : List Char), (Toml.next input).fst.typ ≠ .tokenNewline := by
  refine ⟨fun cs => rfl, rfl, ?_⟩
  intro input
  have hh := toml_skipWhitespace_head input
  rw [Toml.next]
  rcases hskip : Toml.skipWhitespace input with _ | ⟨c, cs⟩
  · simp
  · have hc : goIsSpace c = false := hh c cs hskip
    have hcn : ¬ (c = '\n') := by
      intro h; rw [h] at hc; simp [goIsSpace] at hc
    simp only []
    split_ifs with h1 h2 h3 h4 h5 h6 h7 h8 h9
    · simp
    · simp
    · simp
    · simp
    · simp
    · rcases toml_readString_typ (c :: cs) with h | h <;> simp [h]
    · simp
    · simp
    · rcases toml_readNumberOrDate_typ (c :: cs) with h | h <;> simp [h]
    · simp

/-- Claim C4 counterexample.  A source Null decoded into a scalar (string)
target does not reset it to the zero value: it fails with a conversion
error, because the scalar branches of `setValue` type-assert the nil
interface. -/
theorem claim4_counterexample_null_into_string_errors :
    Json.unmarshalModel GoType.string (GoVal.str "populated") "null" =
      .error "cannot convert to string" :=
  rfl

/-- Claim C4, amended.  A source Null value resets pointer, sequence,
mapping and record targets to their zero values without failing (including
an already-populated record), but decoding Null into a scalar target
(string, integer, unsigned integer, float, boolean) returns a conversion
error instead of writing the zero value. -/
theorem claim4_null_reset_composite_only :
    ∀ (e : GoType) (fs : List (String × String × GoType)) (cur : GoVal),
      setValue (.ptr e) cur .null = .ok .ptrNil ∧
      setValue (.slice e) cur .null = .ok .sliceNil ∧
      setValue (.map e) cur .null = .ok .mapNil ∧
      setValue (.struct fs) cur .null = .ok (zeroVal (.struct fs)) ∧
      setValue .string cur .null = .error "cannot convert to string" ∧
      setValue .int cur .null = .error "cannot convert to int" ∧
      setValue .uint cur .null = .error "cannot convert to uint" ∧
      setValue .float cur .null = .error "cannot convert to float" ∧
      setValue .bool cur .null = .error "cannot convert to bool" :=
  fun _ _ _ => ⟨rfl, rfl, rfl, rfl, rfl, rfl, rfl, rfl, rfl⟩

/-- Claim C5.  The two-statement input `[a.b]\nk = 1` does not decode into
nested tables: the TOML lexer cannot tokenize bare keys, so the token
stream of the whole input is just `[`, and the parser fails with a syntax
error at the table header (no table is ever created and no value
inserted). -/
theorem claim5_nested_table_header_rejected :
    Toml.tokens "[a.b]\nk = 1" = [⟨.tokenLeftBracket, "["⟩] ∧
    Toml.unmarshalModel (.struct [("Integer", "integer", .int)])
      (.structV [.int 0]) "[a.b]\nk = 1" = .err "expected right bracket" :=
  ⟨rfl, rfl⟩

/-- Claim C6.  JSON `Unmarshal` of `{invalid json}` returns a syntax error
as required, but TOML `Unmarshal` of `invalid = toml]` returns a nil error
and leaves the destination untouched: the TOML lexer reports EOF at the
bare identifier `invalid`, so the parser sees an empty statement list and
successfully produces an empty root table. -/
theorem claim6_malformed_input :
    Json.unmarshalModel (.struct [("Name", "name", .string)])
      (.structV [.str ""]) "\x7binvalid json\x7d" = .error "expected string key" ∧
    Toml.unmarshalModel (.struct [("Name", "name", .string)])
      (.structV [.str "old"]) "invalid = toml]" = .ok (.structV [.str "old"]) :=
  ⟨rfl, rfl⟩

/-- Claim C7 counterexample.  Decoding the Float value parsed from `3.0`
into an integer-kind destination is not forbidden: it silently narrows,
storing `int64(3.0) = 3` with no error. -/
theorem claim7_counterexample_float_narrows_into_int :
    Json.unmarshalModel GoType.int (GoVal.int 0) "3.0" = .ok (GoVal.int 3) :=
  rfl

/-- Claim C7, amended.  The literal `3.0` parses as Float and `3` as
Integer, but decoding a Float source into an integer-kind target is
performed by silent truncation toward zero (`int64(v)`: `3.0` stores `3`
and `-3.5` stores `-3`), and decoding an Integer source into a float-kind
target fails with a conversion error instead of being widened. -/
theorem claim7_numeric_kinds :
    ∀ (q : GoFloat) (n : Int) (cur cur2 : GoVal),
      Json.parseTop (Json.tokens "3.0") = .ok (.float ⟨3, 1⟩) ∧
      Json.parseTop (Json.tokens "3") = .ok (.int 3) ∧
      setValue .int cur (.float q) = .ok (.int (goFloatToInt q)) ∧
      Json.unmarshalModel GoType.int (GoVal.int 0) "-3.5" = .ok (GoVal.int (-3)) ∧
      setValue .float cur2 (.int n) = .error "cannot convert to float" :=
  fun _ _ _ _ => ⟨rfl, rfl, rfl, rfl, rfl⟩

/-- A struct's field list is strictly shorter than its size. -/
theorem fields_length_lt (fs : List (String × String × GoType)) :
    fs.length < fieldListSize fs := by
  induction fs with
  | nil => simp [fieldListSize]
  | cons f fs ih =>
    rcases f with ⟨nm, tg, ty⟩
    rw [fieldListSize]
    simp only [List.length_cons]
    omega

/-- When every participating wire name of a struct is absent from the
source table, the field loop succeeds and returns the current field values
unchanged (at any sufficient recursion depth). -/
theorem setStructFields_all_absent :
    ∀ (f : Nat) (fs : List (String × String × GoType)) (vs : List GoVal)
      (entries : List (String × Value)),
      fs.length < f →
      (∀ nm tg ty, (nm, tg, ty) ∈ fs → ∀ w, wireName nm tg = some w →
        getKey entries w = none) →
      (setRun f).setStructFields fs vs entries = .ok vs := by
  intro f
  induction f with
  | zero => intro fs vs entries hlen _; exact absurd hlen (Nat.not_lt_zero _)
  | succ f ih =>
    intro fs vs entries hlen habs
    rcases fs with _ | ⟨⟨nm, tg, ty⟩, fs2⟩
    · rfl
    rcases vs with _ | ⟨v, vs2⟩
    · rfl
    have hrec := ih fs2 vs2 entries
      (by simp only [List.length_cons] at hlen; omega)
      (fun nm2 tg2 ty2 hmem => habs nm2 tg2 ty2 (List.mem_cons_of_mem _ hmem))
    show (setStep (setRun f)).setStructFields ((nm, tg, ty) :: fs2) (v :: vs2) entries =
      .ok (v :: vs2)
    simp only [setStep]
    cases hw : wireName nm tg with
    | none => simp [hw, hrec]
    | some w =>
        have hk : getKey entries w = none := habs nm tg ty (by simp) w hw
        simp [hw, hk, hrec]

/-- Frame property of the struct field loop: whenever it succeeds, a field
whose wire name is absent from the source table (or that does not
participate) keeps its pre-call value. -/
theorem setStructFields_absent_unchanged :
    ∀ (f : Nat) (fs : List (String × String × GoType)) (vs res : List GoVal)
      (entries : List (String × Value)),
      (setRun f).setStructFields fs vs entries = .ok res →
      ∀ (i : Nat) (nm tg ty), fs.get? i = some (nm, tg, ty) →
      (∀ w, wireName nm tg = some w → getKey entries w = none) →
      res.get? i = vs.get? i := by
  intro f
  induction f with
  | zero =>
    intro fs vs res entries h
    simp [setRun, setDepleted] at h
  | succ f ih =>
    intro fs vs res entries h i nm tg ty hget habs
    rcases fs with _ | ⟨⟨nm2, tg2, ty2⟩, fs2⟩
    · simp at hget
    rcases vs with _ | ⟨v, vs2⟩
    · have hres : (Except.ok ([] : List GoVal) : Except String (List GoVal)) =
          Except.ok res := h
      injection hres with hres
      rw [← hres]
    have h' : ((setStep (setRun f)).setStructFields ((nm2, tg2, ty2) :: fs2)
        (v :: vs2) entries) = .ok res := h
    simp only [setStep] at h'
    cases i with
    | zero =>
        simp only [List.get?_cons_zero, Option.some.injEq, Prod.mk.injEq] at hget
        obtain ⟨rfl, rfl, rfl⟩ := hget
        cases hw : wireName nm2 tg2 with
        | none =>
            simp only [hw] at h'
            cases hrec : (setRun f).setStructFields fs2 vs2 entries with
            | error e => simp only [hrec] at h'; cases h'
            | ok rest =>
                simp only [hrec] at h'
                have : v :: rest = res := by simpa using h'
                rw [← this]
                rfl
        | some w =>
            have hk : getKey entries w = none := habs w hw
            simp only [hw, hk] at h'
            cases hrec : (setRun f).setStructFields fs2 vs2 entries with
            | error e => simp only [hrec] at h'; cases h'
            | ok rest =>
                simp only [hrec] at h'
                have : v :: rest = res := by simpa using h'
                rw [← this]
                rfl
    | succ i =>
        simp only [List.get?_cons_succ] at hget
        cases hw : wireName nm2 tg2 with
        | none =>
            simp only [hw] at h'
            cases hrec : (setRun f).setStructFields fs2 vs2 entries with
            | error e => simp only [hrec] at h'; cases h'
            | ok rest =>
                simp only [hrec] at h'
                have hres : v :: rest = res := by simpa using h'
                rw [← hres]
                simpa using ih fs2 vs2 rest entries hrec i nm tg ty hget habs
        | some w =>
            simp only [hw] at h'
            cases hk : getKey entries w with
            | none =>
                simp only [hk] at h'
                cases hrec : (setRun f).setStructFields fs2 vs2 entries with
                | error e => simp only [hrec] at h'; cases h'
                | ok rest =>
                    simp only [hrec] at h'
                    have hres : v :: rest = res := by simpa using h'
                    rw [← hres]
                    simpa using ih fs2 vs2 rest entries hrec i nm tg ty hget habs
            | some src =>
                simp only [hk] at h'
                cases hone : (setRun f).setValue ty2 v src with
                | error e => simp only [hone] at h'; cases h'
                | ok v2 =>
                    simp only [hone] at h'
                    cases hrec : (setRun f).setStructFields fs2 vs2 entries with
                    | error e => simp only [hrec] at h'; cases h'
                    | ok rest =>
                        simp only [hrec] at h'
                        have hres : v2 :: rest = res := by simpa using h'
                        rw [← hres]
                        simpa using ih fs2 vs2 rest entries hrec i nm tg ty hget habs

/-- Claim C8.  Missing-key tolerance of record decoding: a table
containing none of the record's participating wire names decodes with no
error and leaves every field at its pre-call value; and more generally,
whenever a record decode succeeds, every field whose resolved wire name is
absent from the source table (and every non-participating field) is left
unchanged at its pre-call value — only fields whose wire name is present
are written. -/
theorem claim8_missing_key_tolerance :
    (∀ (fs : List (String × String × GoType)) (vs : List GoVal)
       (entries : List (String × Value)),
       (∀ nm tg ty, (nm, tg, ty) ∈ fs → ∀ w, wireName nm tg = some w →
         getKey entries w = none) →
       setValue (.struct fs) (.structV vs) (.obj entries) = .ok (.structV vs)) ∧
    (∀ (fs : List (String × String × GoType)) (vs res : List GoVal)
       (entries : List (String × Value)),
       setValue (.struct fs) (.structV vs) (.obj entries) = .ok (.structV res) →
       ∀ (i : Nat) (nm tg ty), fs.get? i = some (nm, tg, ty) →
       (∀ w, wireName nm tg = some w → getKey entries w = none) →
       res.get? i = vs.get? i) := by
  constructor
  · intro fs vs entries habs
    have hlen : fs.length < valueSize (.obj entries) + typeSize (.struct fs) := by
      have h1 := fields_length_lt fs
      have h2 : typeSize (.struct fs) = 1 + fieldListSize fs := rfl
      omega
    have hrun := setStructFields_all_absent
      (valueSize (.obj entries) + typeSize (.struct fs)) fs vs entries hlen habs
    have hdef : setValue (.struct fs) (.structV vs) (.obj entries) =
        (match (setRun (valueSize (.obj entries) + typeSize (.struct fs))).setStructFields
            fs vs entries with
         | .ok vs2 => .ok (.structV vs2)
         | .error e => .error e) := rfl
    rw [hdef, hrun]
  · intro fs vs res entries h i nm tg ty hget habs
    have hdef : setValue (.struct fs) (.structV vs) (.obj entries) =
        (match (setRun (valueSize (.obj entries) + typeSize (.struct fs))).setStructFields
            fs vs entries with
         | .ok vs2 => .ok (.structV vs2)
         | .error e => .error e) := rfl
    rw [hdef] at h
    cases hrec : (setRun (valueSize (.obj entries) + typeSize (.struct fs))).setStructFields
        fs vs entries with
    | error e => rw [hrec] at h; cases h
    | ok rest =>
        rw [hrec] at h
        have hres : rest = res := by simpa using h
        subst hres
        exact setStructFields_absent_unchanged _ fs vs rest entries hrec i nm tg ty hget habs

/-- Claim C8 witness: a record with one field `Name` (wire name `name`)
decoded against a table containing only the unrelated key `other` keeps
its populated value and reports no error, through both parts of the
theorem. -/
theorem claim8_witness :
    (setValue (.struct [("Name", "name", GoType.string)]) (.structV [.str "keep"])
      (.obj [("other", .int 1)]) = .ok (.structV [.str "keep"])) ∧
    ([GoVal.str "keep"] : List GoVal).get? 0 = ([GoVal.str "keep"] : List GoVal).get? 0 :=
  ⟨claim8_missing_key_tolerance.1 [("Name", "name", GoType.string)] [.str "keep"]
      [("other", .int 1)]
      (by
        intro nm tg ty hmem w hw
        simp only [List.mem_singleton] at hmem
        have h1 : nm = "Name" := congrArg Prod.fst hmem
        have h2 : tg = "name" := congrArg (fun x => x.snd.fst) hmem
        subst h1; subst h2
        have : w = "name" := by
          have := hw.symm.trans (rfl : wireName "Name" "name" = some "name")
          injection this
        subst this
        rfl),
    claim8_missing_key_tolerance.2 [("Name", "name", GoType.string)] [.str "keep"]
      [.str "keep"] [("other", .int 1)] (by rfl) 0 "Name" "name" GoType.string (by rfl)
      (by
        intro w hw
        have : w = "name" := by
          have := hw.symm.trans (rfl : wireName "Name" "name" = some "name")
          injection this
        subst this
        rfl)⟩

/-- Claim C9.  Encoding a nil native sequence yields the empty-collection
literal `[]` in the TOML codec but the null literal `null` in the JSON
codec, for every element type (and, for TOML, every dotted prefix). -/
theorem claim9_nil_sequence_asymmetry :
    ∀ (e : GoType) (pfx : String),
      Toml.marshalArray e GoVal.sliceNil = .ok "[]" ∧
      Json.marshalArray e GoVal.sliceNil = .ok "null" ∧
      Toml.marshalValue (.slice e) GoVal.sliceNil pfx = .ok "[]" ∧
      Json.marshalValue (.slice e) GoVal.sliceNil = .ok "null" :=
  fun _ _ => ⟨rfl, rfl, rfl, rfl⟩

/-- The JSON `parseValue` always fails on the EOF position (empty token
list), at any fuel. -/
theorem json_parseValue_nil (f : Nat) :
    ∃ e, (Json.parseRun f).parseValue [] = .error e := by
  cases f with
  | zero => exact ⟨"out of fuel", rfl⟩
  | succ f => exact ⟨"unexpected token", rfl⟩

/-- The JSON member loop always fails on the EOF position, at any fuel. -/
theorem json_parseMembers_nil (f : Nat) (acc : List (String × Value)) :
    ∃ e, (Json.parseRun f).parseMembers acc [] = .error e := by
  cases f with
  | zero => exact ⟨"out of fuel", rfl⟩
  | succ f => exact ⟨"expected string key", rfl⟩

/-- The JSON element loop always fails on the EOF position, at any fuel. -/
theorem json_parseElems_nil (f : Nat) (acc : List Value) :
    ∃ e, (Json.parseRun f).parseElems acc [] = .error e := by
  cases f with
  | zero => exact ⟨"out of fuel", rfl⟩
  | succ f =>
      obtain ⟨e, he⟩ := json_parseValue_nil f
      refine ⟨e, ?_⟩
      have h1 : (Json.parseRun (f + 1)).parseElems acc [] =
          (Json.parseStep (Json.parseRun f)).parseElems acc [] := rfl
      rw [h1]
      simp only [Json.parseStep]
      rw [he]

/-- Extension property of the JSON parser: a successful parse is stable
under appending arbitrary trailing tokens (and under raising the fuel) —
the parser consumes the same prefix, produces the same value, and hands
the trailing tokens back untouched.  Stated simultaneously for all five
mutually recursive parsing functions and proved by induction on the
fuel. -/
theorem json_parse_extend :
    ∀ (f : Nat),
      (∀ (toks : List Json.token) (v : Value) (rest extra : List Json.token) (g : Nat),
        f ≤ g → (Json.parseRun f).parseValue toks = .ok (v, rest) →
        (Json.parseRun g).parseValue (toks ++ extra) = .ok (v, rest ++ extra)) ∧
      (∀ (toks : List Json.token) (v : Value) (rest extra : List Json.token) (g : Nat),
        f ≤ g → (Json.parseRun f).parseObject toks = .ok (v, rest) →
        (Json.parseRun g).parseObject (toks ++ extra) = .ok (v, rest ++ extra)) ∧
      (∀ (acc : List (String × Value)) (toks : List Json.token) (v : Value)
        (rest extra : List Json.token) (g : Nat),
        f ≤ g → (Json.parseRun f).parseMembers acc toks = .ok (v, rest) →
        (Json.parseRun g).parseMembers acc (toks ++ extra) = .ok (v, rest ++ extra)) ∧
      (∀ (toks : List Json.token) (v : Value) (rest extra : List Json.token) (g : Nat),
        f ≤ g → (Json.parseRun f).parseArray toks = .ok (v, rest) →
        (Json.parseRun g).parseArray (toks ++ extra) = .ok (v, rest ++ extra)) ∧
      (∀ (acc : List Value) (toks : List Json.token) (v : Value)
        (rest extra : List Json.token) (g : Nat),
        f ≤ g → (Json.parseRun f).parseElems acc toks = .ok (v, rest) →
        (Json.parseRun g).parseElems acc (toks ++ extra) = .ok (v, rest ++ extra)) := by
  intro f
  induction f with
  | zero =>
      refine ⟨?_, ?_, ?_, ?_, ?_⟩
      · intro toks v rest extra g hle h
        exact Except.noConfusion h
      · intro toks v rest extra g hle h
        exact Except.noConfusion h
      · intro acc toks v rest extra g hle h
        exact Except.noConfusion h
      · intro toks v rest extra g hle h
        exact Except.noConfusion h
      · intro acc toks v rest extra g hle h
        exact Except.noConfusion h
  | succ f ih =>
      obtain ⟨ihv, iho, ihm, iha, ihe⟩ := ih
      refine ⟨?_, ?_, ?_, ?_, ?_⟩
      · -- parseValue
        intro toks v rest extra g hle h
        obtain ⟨g', rfl⟩ : ∃ g', g = g' + 1 := ⟨g - 1, by omega⟩
        have hle' : f ≤ g' := by omega
        replace h : (Json.parseStep (Json.parseRun f)).parseValue toks = .ok (v, rest) := h
        show (Json.parseStep (Json.parseRun g')).parseValue (toks ++ extra) =
          .ok (v, rest ++ extra)
        rcases toks with _ | ⟨⟨ty, val⟩, rest0⟩
        · exact Except.noConfusion h
        simp only [Json.parseStep, List.cons_append] at h ⊢
        cases ty with
        | tokenString =>
            simp only [Except.ok.injEq, Prod.mk.injEq] at h
            obtain ⟨rfl, rfl⟩ := h
            rfl
        | tokenNumber =>
            by_cases hdot : val.toList.contains '.'
            · simp only [hdot, if_true] at h ⊢
              cases hp : goParseFloat val with
              | none => simp only [hp] at h; exact Except.noConfusion h
              | some q =>
                  simp only [hp, Except.ok.injEq, Prod.mk.injEq] at h
                  obtain ⟨rfl, rfl⟩ := h
                  rfl
            · simp only [hdot, if_false] at h ⊢
              cases hp : goParseInt val with
              | none => simp only [hp] at h; exact Except.noConfusion h
              | some n =>
                  simp only [hp, Except.ok.injEq, Prod.mk.injEq] at h
                  obtain ⟨rfl, rfl⟩ := h
                  rfl
        | tokenTrue =>
            simp only [Except.ok.injEq, Prod.mk.injEq] at h
            obtain ⟨rfl, rfl⟩ := h
            rfl
        | tokenFalse =>
            simp only [Except.ok.injEq, Prod.mk.injEq] at h
            obtain ⟨rfl, rfl⟩ := h
            rfl
        | tokenNull =>
            simp only [Except.ok.injEq, Prod.mk.injEq] at h
            obtain ⟨rfl, rfl⟩ := h
            rfl
        | tokenLeftBrace => exact iho rest0 v rest extra g' hle' h
        | tokenLeftBracket => exact iha rest0 v rest extra g' hle' h
        | tokenEOF => exact Except.noConfusion h
        | tokenRightBrace => exact Except.noConfusion h
        | tokenRightBracket => exact Except.noConfusion h
        | tokenComma => exact Except.noConfusion h
        | tokenColon => exact Except.noConfusion h
      · -- parseObject
        intro toks v rest extra g hle h
        obtain ⟨g', rfl⟩ : ∃ g', g = g' + 1 := ⟨g - 1, by omega⟩
        have hle' : f ≤ g' := by omega
        replace h : (Json.parseStep (Json.parseRun f)).parseObject toks = .ok (v, rest) := h
        show (Json.parseStep (Json.parseRun g')).parseObject (toks ++ extra) =
          .ok (v, rest ++ extra)
        rcases toks with _ | ⟨⟨ty, val⟩, rest0⟩
        · replace h : (Json.parseRun f).parseMembers [] [] = .ok (v, rest) := h
          obtain ⟨e, he⟩ := json_parseMembers_nil f []
          rw [he] at h
          exact Except.noConfusion h
        cases ty with
        | tokenRightBrace =>
            replace h : (Except.ok (Value.obj [], rest0) :
                Except String (Value × List Json.token)) = .ok (v, rest) := h
            simp only [Except.ok.injEq, Prod.mk.injEq] at h
            obtain ⟨rfl, rfl⟩ := h
            rfl
        | tokenEOF => exact ihm [] _ v rest extra g' hle' h
        | tokenString => exact ihm [] _ v rest extra g' hle' h
        | tokenNumber => exact ihm [] _ v rest extra g' hle' h
        | tokenTrue => exact ihm [] _ v rest extra g' hle' h
        | tokenFalse => exact ihm [] _ v rest extra g' hle' h
        | tokenNull => exact ihm [] _ v rest extra g' hle' h
        | tokenLeftBrace => exact ihm [] _ v rest extra g' hle' h
        | tokenLeftBracket => exact ihm [] _ v rest extra g' hle' h
        | tokenRightBracket => exact ihm [] _ v rest extra g' hle' h
        | tokenComma => exact ihm [] _ v rest extra g' hle' h
        | tokenColon => exact ihm [] _ v rest extra g' hle' h
      · -- parseMembers
        intro acc toks v rest extra g hle h
        obtain ⟨g', rfl⟩ : ∃ g', g = g' + 1 := ⟨g - 1, by omega⟩
        have hle' : f ≤ g' := by omega
        replace h : (Json.parseStep (Json.parseRun f)).parseMembers acc toks = .ok (v, rest) := h
        show (Json.parseStep (Json.parseRun g')).parseMembers acc (toks ++ extra) =
          .ok (v, rest ++ extra)
        rcases toks with _ | ⟨⟨ty, k⟩, afterKey⟩
        · exact Except.noConfusion h
        cases ty with
        | tokenString =>
            rcases afterKey with _ | ⟨⟨ty2, val2⟩, afterColon⟩
            · exact Except.noConfusion h
            simp only [Json.parseStep, List.cons_append] at h ⊢
            cases ty2 with
            | tokenColon =>
                cases hres : (Json.parseRun f).parseValue afterColon with
                | error e => simp only [hres] at h; exact Except.noConfusion h
                | ok pr =>
                    obtain ⟨v0, rest0⟩ := pr
                    have hev := ihv afterColon v0 rest0 extra g' hle' hres
                    simp only [hres] at h
                    simp only [hev]
                    rcases rest0 with _ | ⟨⟨ty3, val3⟩, r2⟩
                    · exact Except.noConfusion h
                    simp only [List.cons_append]
                    cases ty3 with
                    | tokenRightBrace =>
                        simp only [Except.ok.injEq, Prod.mk.injEq] at h
                        obtain ⟨rfl, rfl⟩ := h
                        rfl
                    | tokenComma => exact ihm (setKey acc k v0) r2 v rest extra g' hle' h
                    | tokenEOF => exact Except.noConfusion h
                    | tokenString => exact Except.noConfusion h
                    | tokenNumber => exact Except.noConfusion h
                    | tokenTrue => exact Except.noConfusion h
                    | tokenFalse => exact Except.noConfusion h
                    | tokenNull => exact Except.noConfusion h
                    | tokenLeftBrace => exact Except.noConfusion h
                    | tokenLeftBracket => exact Except.noConfusion h
                    | tokenRightBracket => exact Except.noConfusion h
                    | tokenColon => exact Except.noConfusion h
            | tokenEOF => exact Except.noConfusion h
            | tokenString => exact Except.noConfusion h
            | tokenNumber => exact Except.noConfusion h
            | tokenTrue => exact Except.noConfusion h
            | tokenFalse => exact Except.noConfusion h
            | tokenNull => exact Except.noConfusion h
            | tokenLeftBrace => exact Except.noConfusion h
            | tokenLeftBracket => exact Except.noConfusion h
            | tokenRightBrace => exact Except.noConfusion h
            | tokenRightBracket => exact Except.noConfusion h
            | tokenComma => exact Except.noConfusion h
        | tokenEOF => exact Except.noConfusion h
        | tokenNumber => exact Except.noConfusion h
        | tokenTrue => exact Except.noConfusion h
        | tokenFalse => exact Except.noConfusion h
        | tokenNull => exact Except.noConfusion h
        | tokenLeftBrace => exact Except.noConfusion h
        | tokenLeftBracket => exact Except.noConfusion h
        | tokenRightBrace => exact Except.noConfusion h
        | tokenRightBracket => exact Except.noConfusion h
        | tokenComma => exact Except.noConfusion h
        | tokenColon => exact Except.noConfusion h
      · -- parseArray
        intro toks v rest extra g hle h
        obtain ⟨g', rfl⟩ : ∃ g', g = g' + 1 := ⟨g - 1, by omega⟩
        have hle' : f ≤ g' := by omega
        replace h : (Json.parseStep (Json.parseRun f)).parseArray toks = .ok (v, rest) := h
        show (Json.parseStep (Json.parseRun g')).parseArray (toks ++ extra) =
          .ok (v, rest ++ extra)
        rcases toks with _ | ⟨⟨ty, val⟩, rest0⟩
        · replace h : (Json.parseRun f).parseElems [] [] = .ok (v, rest) := h
          obtain ⟨e, he⟩ := json_parseElems_nil f []
          rw [he] at h
          exact Except.noConfusion h
        cases ty with
        | tokenRightBracket =>
            replace h : (Except.ok (Value.arr [], rest0) :
                Except String (Value × List Json.token)) = .ok (v, rest) := h
            simp only [Except.ok.injEq, Prod.mk.injEq] at h
            obtain ⟨rfl, rfl⟩ := h
            rfl
        | tokenEOF => exact ihe [] _ v rest extra g' hle' h
        | tokenString => exact ihe [] _ v rest extra g' hle' h
        | tokenNumber => exact ihe [] _ v rest extra g' hle' h
        | tokenTrue => exact ihe [] _ v rest extra g' hle' h
        | tokenFalse => exact ihe [] _ v rest extra g' hle' h
        | tokenNull => exact ihe [] _ v rest extra g' hle' h
        | tokenLeftBrace => exact ihe [] _ v rest extra g' hle' h
        | tokenLeftBracket => exact ihe [] _ v rest extra g' hle' h
        | tokenRightBrace => exact ihe [] _ v rest extra g' hle' h
        | tokenComma => exact ihe [] _ v rest extra g' hle' h
        | tokenColon => exact ihe [] _ v rest extra g' hle' h
      · -- parseElems
        intro acc toks v rest extra g hle h
        obtain ⟨g', rfl⟩ : ∃ g', g = g' + 1 := ⟨g - 1, by omega⟩
        have hle' : f ≤ g' := by omega
        replace h : (Json.parseStep (Json.parseRun f)).parseElems acc toks = .ok (v, rest) := h
        show (Json.parseStep (Json.parseRun g')).parseElems acc (toks ++ extra) =
          .ok (v, rest ++ extra)
        simp only [Json.parseStep] at h ⊢
        cases hres : (Json.parseRun f).parseValue toks with
        | error e => simp only [hres] at h; exact Except.noConfusion h
        | ok pr =>
            obtain ⟨v0, rest0⟩ := pr
            have hev := ihv toks v0 rest0 extra g' hle' hres
            simp only [hres] at h
            simp only [hev]
            rcases rest0 with _ | ⟨⟨ty3, val3⟩, r2⟩
            · exact Except.noConfusion h
            simp only [List.cons_append]
            cases ty3 with
            | tokenRightBracket =>
                simp only [Except.ok.injEq, Prod.mk.injEq] at h
                obtain ⟨rfl, rfl⟩ := h
                rfl
            | tokenComma => exact ihe (acc ++ [v0]) r2 v rest extra g' hle' h
            | tokenEOF => exact Except.noConfusion h
            | tokenString => exact Except.noConfusion h
            | tokenNumber => exact Except.noConfusion h
            | tokenTrue => exact Except.noConfusion h
            | tokenFalse => exact Except.noConfusion h
            | tokenNull => exact Except.noConfusion h
            | tokenLeftBrace => exact Except.noConfusion h
            | tokenLeftBracket => exact Except.noConfusion h
            | tokenRightBrace => exact Except.noConfusion h
            | tokenColon => exact Except.noConfusion h

/-- Claim C10.  JSON `Unmarshal` parses exactly one top-level value and
never checks that the input is exhausted: whenever a token stream `pre` is
a complete JSON value (the parse consumes all of it), parsing `pre`
followed by arbitrary trailing tokens succeeds with the same value and no
error — the trailing content is simply ignored by `parseTop`. -/
theorem claim10_trailing_content_ignored :
    ∀ (pre extra : List Json.token) (v : Value),
      Json.parseValue (Json.parseFuel pre) pre = .ok (v, []) →
      Json.parseTop (pre ++ extra) = .ok v := by
  intro pre extra v h
  have hle : Json.parseFuel pre ≤ Json.parseFuel (pre ++ extra) := by
    simp only [Json.parseFuel, List.length_append]
    omega
  have hext : Json.parseValue (Json.parseFuel (pre ++ extra)) (pre ++ extra) =
      .ok (v, extra) :=
    (json_parse_extend (Json.parseFuel pre)).1 pre v [] extra
      (Json.parseFuel (pre ++ extra)) hle h
  rw [Json.parseTop, hext]

/-- Claim C10 witness: the complete object `{"a":1}` followed by the token
garbage `] } 42` still decodes to that object with no error. -/
theorem claim10_witness :
    Json.parseTop (Json.tokens "\x7b\"a\":1\x7d" ++
      [⟨.tokenRightBracket, "]"⟩, ⟨.tokenRightBrace, "\x7d"⟩, ⟨.tokenNumber, "42"⟩]) =
      .ok (.obj [("a", .int 1)]) :=
  claim10_trailing_content_ignored (Json.tokens "\x7b\"a\":1\x7d")
    [⟨.tokenRightBracket, "]"⟩, ⟨.tokenRightBrace, "\x7d"⟩, ⟨.tokenNumber, "42"⟩]
    (.obj [("a", .int 1)]) (by rfl)

end Serializer
